import Mathlib

/-
  Verification development for the DAO dashboard backend
  (task/DAO mutation-and-notification pipeline).

  Shallow embedding of the Express route handlers and services:
    - src/backend-express/routes/dao-simple.ts
    - src/backend-express/routes/tasks.ts
    - src/backend-express/services/emailService.ts
  Strings are modelled as Lean String, JS numbers holding task progress as
  Int, absent/undefined JS fields as Option.  All definitions are executable
  and structural, so concrete runs evaluate by rfl/decide.
-/

/-! ## String helpers: the sanitizer

  Source (dao-simple.ts lines 57-60 and tasks.ts lines 26-29):

    function sanitizeString(input) \x7b
      return input.replace(/<[^>]*>/g, "").trim();
    \x7d

  The global regex replace removes, scanning left to right, every leftmost
  segment that starts at a '<' and ends at the first following '>', since
  the greedy [^>]* cannot cross a '>'.  An unclosed trailing '<'-segment is
  kept verbatim (the regex finds no further match).  stripAux is the
  standard one-pass automaton for this: while inside a candidate tag it
  buffers the consumed characters (in reverse) and restores them if the
  input ends before a closing '>'.
-/

def stripAux : List Char → Option (List Char) → List Char
  | [], none => []
  | [], some buf => buf.reverse
  | c :: rest, none =>
      if c = '<' then stripAux rest (some [c]) else c :: stripAux rest none
  | c :: rest, some buf =>
      if c = '>' then stripAux rest none else stripAux rest (some (c :: buf))

/-- A character list contains a '>' somewhere. -/
def hasGt : List Char → Bool
  | [] => false
  | c :: rest => c == '>' || hasGt rest

/-- A character list contains a substring matching the tag pattern
  (a '<' with some later '>', which is equivalent to containing a
  full match of the regex). -/
def hasTag : List Char → Bool
  | [] => false
  | c :: rest => (c == '<' && hasGt rest) || hasTag rest

/-- Whitespace characters removed by JS String.prototype.trim
  (the common ASCII set; exotic Unicode space characters do not occur in
  the payloads this model is used on). -/
def isJsSpace (c : Char) : Bool :=
  c == ' ' || c == '\t' || c == '\n' || c == '\r' ||
  c == '\x0b' || c == '\x0c'

def trimLeft (l : List Char) : List Char := l.dropWhile isJsSpace

def trimRight (l : List Char) : List Char :=
  (l.reverse.dropWhile isJsSpace).reverse

def jsTrim (l : List Char) : List Char := trimRight (trimLeft l)

/-- sanitizeString from dao-simple.ts lines 57-60 / tasks.ts lines 26-29:
  strip the markup-like segments, then trim. -/
def sanitizeString (input : String) : String :=
  String.mk (jsTrim (stripAux input.toList none))

/-! ## Data model (shared/dao shapes used by the backend routes) -/

/-- A checklist task of a case file.  progress is the JS number-or-null
  field; comment/assignedTo/lastUpdatedBy/lastUpdatedAt are optional. -/
structure DaoTask where
  id : Nat
  name : String
  progress : Option Int
  comment : Option String
  isApplicable : Bool
  assignedTo : Option String
  lastUpdatedBy : Option String
  lastUpdatedAt : Option String
deriving DecidableEq

/-- A team member; role is the literal role string
  (chef_equipe or membre_equipe). -/
structure TeamMember where
  id : String
  name : String
  role : String
  email : Option String
deriving DecidableEq

/-- A case file (Dao). -/
structure Dao where
  id : String
  numeroListe : String
  objetDossier : String
  reference : String
  autoriteContractante : String
  dateDepot : String
  equipe : List TeamMember
  tasks : List DaoTask
  createdAt : String
  updatedAt : String
deriving DecidableEq

/-- Kinds of in-app notification events consumed by the client. -/
inductive NotifKind
  | role_update | comment_added | comment_updated | comment_deleted
  | task_created | task_deleted | task_updated | task_assigned
  | task_unassigned | dao_created | dao_updated | task_reordered | system
deriving DecidableEq

/-- One broadcast in-app notification.  The French title/message strings are
  presentational and omitted; the payload fields that carry the structure
  (dao id, task id, change list, assignee) are kept. -/
structure NotificationEvent where
  kind : NotifKind
  daoId : String
  taskId : Option Nat := none
  changes : List String := []
  assignedTo : Option String := none
deriving DecidableEq

/-- Truthiness of an optional JS string (undefined and the empty string are
  falsy). -/
def strTruthy : Option String → Bool
  | none => false
  | some s => s ≠ ""

/-! ## Task field update (PUT /api/dao/:id/tasks/:taskId, dao-simple.ts 602-753) -/

/-- Body of the task update request (taskUpdateSchema, dao-simple.ts 50-55):
  each field is applied only when present. -/
structure TaskUpdateRequest where
  progress : Option Int
  comment : Option String
  isApplicable : Option Bool
  assignedTo : Option String
deriving DecidableEq

/-- Field application of dao-simple.ts lines 647-661: progress is taken
  verbatim when present, comment and assignedTo are sanitized, the
  applicability flag is replaced, and the actor/timestamp are restamped.
  Note no interplay between isApplicable and progress takes place here. -/
def applyTaskUpdate (req : TaskUpdateRequest) (t : DaoTask)
    (userId now : String) : DaoTask :=
  let t1 := match req.progress with
    | some p => { t with progress := some p }
    | none => t
  let t2 := match req.comment with
    | some c => { t1 with comment := some (sanitizeString c) }
    | none => t1
  let t3 := match req.isApplicable with
    | some b => { t2 with isApplicable := b }
    | none => t2
  let t4 := match req.assignedTo with
    | some a => { t3 with assignedTo := some (sanitizeString a) }
    | none => t3
  { t4 with lastUpdatedBy := some userId, lastUpdatedAt := some now }

/-- The precise change list of dao-simple.ts lines 673-689 (order:
  progress, comment, applicability, assignee). -/
def taskChangeList (previous t : DaoTask) : List String :=
  (if previous.progress.getD 0 ≠ t.progress.getD 0 then
    ["progression " ++ toString (previous.progress.getD 0) ++ "% → " ++
      toString (t.progress.getD 0) ++ "%"] else []) ++
  (if previous.comment ≠ t.comment then ["commentaire modifié"] else []) ++
  (if previous.isApplicable ≠ t.isApplicable then
    ["applicabilité " ++ (if previous.isApplicable then "oui" else "non") ++
      " → " ++ (if t.isApplicable then "oui" else "non")] else []) ++
  (if previous.assignedTo ≠ t.assignedTo then
    [match previous.assignedTo with
     | some prev =>
        if prev ≠ "" then
          "réassignée (" ++ prev ++ " → " ++ t.assignedTo.getD "aucun" ++ ")"
        else "assignée à " ++ t.assignedTo.getD "aucun"
     | none => "assignée à " ++ t.assignedTo.getD "aucun"] else [])

/-- The single broadcast of dao-simple.ts lines 691-716: when the assignee
  changed, a task_assigned (or task_unassigned when the new value is falsy)
  event with the assignee payload; otherwise a task_updated event with the
  change list payload. -/
def updateTaskEvents (daoId : String) (previous t : DaoTask) :
    List NotificationEvent :=
  if previous.assignedTo ≠ t.assignedTo then
    [{ kind := if strTruthy t.assignedTo then .task_assigned
               else .task_unassigned,
       daoId := daoId, taskId := some t.id, assignedTo := t.assignedTo }]
  else
    [{ kind := .task_updated, daoId := daoId, taskId := some t.id,
       changes := taskChangeList previous t }]

/-- The PUT /api/dao/:id/tasks/:taskId handler after validation: locate the
  task by id (none models the 404 TASK_NOT_FOUND reply), mutate it in place
  (the source mutates the object returned by find, i.e. the first match),
  persist the task list, and compute the broadcasts. -/
def updateTaskHandler (dao : Dao) (taskId : Nat) (req : TaskUpdateRequest)
    (userId now : String) : Option (Dao × List NotificationEvent) :=
  match dao.tasks.find? (fun t => t.id == taskId) with
  | none => none
  | some task =>
      let previous := task
      let newTask := applyTaskUpdate req task userId now
      let newTasks :=
        dao.tasks.set (dao.tasks.findIdx (fun t => t.id == taskId)) newTask
      let updated := { dao with tasks := newTasks, updatedAt := now }
      some (updated, updateTaskEvents dao.id previous newTask)

/-! ## Task reorder (PUT /api/dao/:id/tasks/reorder, dao-simple.ts 506-600) -/

inductive ReorderError
  | invalidTaskIds
  | incompleteTaskList
deriving DecidableEq

/-- The reorder handler after the DAO id checks and the DAO lookup.  Error
  cases reproduce the source order: empty (or non-array) input is rejected
  as INVALID_TASK_IDS (lines 524-529); an id that does not exist is
  INVALID_TASK_IDS (lines 539-549); a count mismatch or a missing existing
  id is INCOMPLETE_TASK_LIST (lines 551-559).  On success the stored list
  becomes the tasks picked in the order of taskIds. -/
def reorderHandler (dao : Dao) (taskIds : List Nat) (now : String) :
    Except ReorderError Dao :=
  if taskIds = [] then .error .invalidTaskIds
  else
    let existingTaskIds := dao.tasks.map (·.id)
    let invalidIds := taskIds.filter (fun tid => tid ∉ existingTaskIds)
    if invalidIds ≠ [] then .error .invalidTaskIds
    else if taskIds.length ≠ dao.tasks.length ∨
        ¬ (∀ tid ∈ existingTaskIds, tid ∈ taskIds) then
      .error .incompleteTaskList
    else
      .ok { dao with
              tasks := taskIds.filterMap
                (fun tid => dao.tasks.find? (fun t => t.id == tid)),
              updatedAt := now }

/-! ## Add / delete task (tasks.ts) -/

/-- Body of POST /api/dao/:daoId/tasks (createTaskSchema, tasks.ts 14-20). -/
structure CreateTaskRequest where
  name : String
  isApplicable : Bool
  progress : Option Int
  comment : Option String
  assignedTo : Option String
deriving DecidableEq

/-- Math.max over a list, as an Option (none for the empty list). -/
def listMaxNat : List Nat → Option Nat
  | [] => none
  | x :: xs => some (match listMaxNat xs with
    | none => x
    | some m => max x m)

/-- Id allocation of tasks.ts lines 58-59:
  max of the existing ids plus one, or 1 when there is no task. -/
def newTaskId (tasks : List DaoTask) : Nat :=
  match listMaxNat (tasks.map (·.id)) with
  | some m => m + 1
  | none => 1

/-- Core of the POST /api/dao/:daoId/tasks handler (tasks.ts 58-76): build
  the new task (progress forced null unless applicable, comment sanitized
  when truthy) and append it to the task list. -/
def addTaskCore (dao : Dao) (req : CreateTaskRequest) (userId now : String) :
    Dao × DaoTask :=
  let newTask : DaoTask :=
    { id := newTaskId dao.tasks,
      name := sanitizeString req.name,
      progress := if req.isApplicable then req.progress else none,
      comment := match req.comment with
        | some c => if c ≠ "" then some (sanitizeString c) else none
        | none => none,
      isApplicable := req.isApplicable,
      assignedTo := req.assignedTo,
      lastUpdatedBy := some userId,
      lastUpdatedAt := some now }
  ({ dao with tasks := dao.tasks ++ [newTask], updatedAt := now }, newTask)

/-- Core of the DELETE /api/dao/:daoId/tasks/:taskId handler
  (tasks.ts 254-265): locate by id, splice out, persist the rest; returns
  the updated case file and the removed task (none models 404). -/
def deleteTaskCore (dao : Dao) (taskId : Nat) (now : String) :
    Option (Dao × DaoTask) :=
  match dao.tasks.findIdx? (fun t => t.id == taskId) with
  | none => none
  | some idx =>
      match dao.tasks[idx]? with
      | none => none
      | some t =>
          some ({ dao with tasks := dao.tasks.eraseIdx idx,
                           updatedAt := now }, t)

/-! ## Case file creation: task seeding (dao-simple.ts 158-176) -/

/-- Shape of an incoming task at creation time, which is also the shape of
  a DEFAULT_TASKS template entry (the template itself lives in shared/dao;
  the seeding logic below is the code of dao-simple.ts 158-176 and is
  stated for an arbitrary template). -/
structure TaskTemplate where
  id : Option Nat
  name : String
  isApplicable : Bool
  progress : Option Int
  comment : Option String
  assignedTo : Option String
deriving DecidableEq

/-- The per-task normalization map of dao-simple.ts lines 167-176: keep a
  numeric id or use the 1-based index, sanitize the name, null the progress
  unless applicable, sanitize a truthy comment (a falsy one becomes
  undefined), and stamp actor/time. -/
def normalizeTask (userId now : String) (idx : Nat) (t : TaskTemplate) :
    DaoTask :=
  { id := t.id.getD (idx + 1),
    name := sanitizeString t.name,
    progress := if t.isApplicable then t.progress else none,
    comment := match t.comment with
      | some c => if c ≠ "" then some (sanitizeString c) else none
      | none => none,
    isApplicable := t.isApplicable,
    assignedTo := t.assignedTo,
    lastUpdatedBy := some userId,
    lastUpdatedAt := some now }

/-- Task seeding of dao-simple.ts lines 158-176: when the request supplies
  no tasks (undefined or an empty array), the default template is used with
  progress nulled and comment emptied, then every task goes through the
  normalization map. -/
def seedCreateTasks (input : List TaskTemplate)
    (defaultTasks : List TaskTemplate) (userId now : String) :
    List DaoTask :=
  let base := if input.isEmpty then
      defaultTasks.map (fun t => { t with progress := none,
                                          comment := some "" })
    else input
  base.enum.map (fun p => normalizeTask userId now p.1 p.2)

/-! ## Case file update (PUT /api/dao/:id, dao-simple.ts 241-453) -/

/-- The header field diff of dao-simple.ts lines 390-402, in source order. -/
def daoChangedFields (before updated : Dao) : List String :=
  (if before.numeroListe ≠ updated.numeroListe then ["numéro de liste"]
   else []) ++
  (if before.objetDossier ≠ updated.objetDossier then ["objet du dossier"]
   else []) ++
  (if before.reference ≠ updated.reference then ["référence"] else []) ++
  (if before.autoriteContractante ≠ updated.autoriteContractante then
    ["autorité contractante"] else []) ++
  (if before.dateDepot ≠ updated.dateDepot then ["date de dépôt"] else [])

/-- The team diff of dao-simple.ts lines 296-308: additions and role changes
  in after-iteration order, then removals in before-iteration order. -/
def teamChanges (before updated : List TeamMember) : List String :=
  updated.filterMap (fun m =>
    match before.find? (fun p => p.id == m.id) with
    | none => some (m.name ++ " ajouté")
    | some p =>
        if p.role ≠ m.role then
          some (m.name ++ ": " ++ p.role ++ " → " ++ m.role)
        else none) ++
  before.filterMap (fun p =>
    if updated.any (fun m => m.id == p.id) then none
    else some (p.name ++ " retiré"))

/-- The per-task diff used by PUT /api/dao/:id (dao-simple.ts lines 340-358;
  order: applicability, progress when applicable, comment, assignee). -/
def putTaskDiffs (prev t : DaoTask) : List String :=
  (if prev.isApplicable ≠ t.isApplicable then
    ["applicabilité " ++ (if prev.isApplicable then "Oui" else "Non") ++
      " → " ++ (if t.isApplicable then "Oui" else "Non")] else []) ++
  (if prev.progress.getD 0 ≠ t.progress.getD 0 ∧ t.isApplicable then
    ["progression " ++ toString (prev.progress.getD 0) ++ "% → " ++
      toString (t.progress.getD 0) ++ "%"] else []) ++
  (if prev.comment ≠ t.comment then ["commentaire modifié"] else []) ++
  (if prev.assignedTo ≠ t.assignedTo then
    [match prev.assignedTo with
     | some p =>
        if p ≠ "" then
          "réassignée (" ++ p ++ " → " ++ t.assignedTo.getD "aucun" ++ ")"
        else "assignée à " ++ t.assignedTo.getD "aucun"
     | none => "assignée à " ++ t.assignedTo.getD "aucun"] else [])

/-- The per-task broadcasts of dao-simple.ts lines 335-377: one task_updated
  event for every updated task that also existed before and whose diff list
  is non-empty. -/
def putTaskEvents (daoId : String) (beforeTasks afterTasks : List DaoTask) :
    List NotificationEvent :=
  afterTasks.filterMap (fun t =>
    match beforeTasks.find? (fun p => p.id == t.id) with
    | none => none
    | some prev =>
        if (putTaskDiffs prev t).isEmpty then none
        else some { kind := .task_updated, daoId := daoId,
                    taskId := some t.id, changes := putTaskDiffs prev t })

/-- All broadcasts of the PUT /api/dao/:id handler (dao-simple.ts 287-424)
  on the no-exception path: the team role_update event (only when the
  request supplied a team and the team diff is non-empty, lines 295-331),
  the per-task task_updated events (only when the request supplied tasks,
  lines 335-378), and the generic dao_updated event, fired iff a header
  field changed or no per-task broadcast happened (lines 385-424). -/
def putDaoEvents (before updated : Dao)
    (equipeSupplied tasksSupplied : Bool) : List NotificationEvent :=
  let teamEvs :=
    if equipeSupplied ∧ teamChanges before.equipe updated.equipe ≠ [] then
      [{ kind := .role_update, daoId := updated.id,
         changes := teamChanges before.equipe updated.equipe }]
    else []
  let taskEvs :=
    if tasksSupplied then putTaskEvents updated.id before.tasks updated.tasks
    else []
  let changedFields := daoChangedFields before updated
  let hasTaskChanges := taskEvs ≠ []
  teamEvs ++ taskEvs ++
    (if changedFields ≠ [] ∨ ¬ hasTaskChanges then
      [{ kind := .dao_updated, daoId := updated.id,
         changes := changedFields }]
     else [])

/-! ## Numbering allocator (DaoService.generateNextDaoNumber,
  dao-simple.ts related-service lines 813-841, in-memory branch) -/

/-- String.prototype.startsWith. -/
def jsStartsWith (s pre : String) : Bool :=
  pre.toList.isPrefixOf s.toList

/-- Decimal digit value of a character. -/
def charDigitVal (c : Char) : Nat := c.toNat - 48

/-- One attempt of the unanchored regex /DAO-\d\x7b4\x7d-(\d\x7b3\x7d)/ at
  the head of the list: DAO- then four digits then - then the three
  captured digits. -/
def tryMatchAt : List Char → Option Nat
  | 'D' :: 'A' :: 'O' :: '-' :: y1 :: y2 :: y3 :: y4 :: '-' ::
      e1 :: e2 :: e3 :: _ =>
      if y1.isDigit && y2.isDigit && y3.isDigit && y4.isDigit &&
          e1.isDigit && e2.isDigit && e3.isDigit then
        some (charDigitVal e1 * 100 + charDigitVal e2 * 10 + charDigitVal e3)
      else none
  | _ => none

/-- Leftmost match of the pattern anywhere in the string (the JS regex
  engine retries at each successive start position). -/
def scanDaoNum : List Char → Option Nat
  | [] => none
  | c :: rest =>
      match tryMatchAt (c :: rest) with
      | some n => some n
      | none => scanDaoNum rest

/-- next.toString().padStart(3, "0"). -/
def pad3 (n : Nat) : String :=
  let s := toString n
  String.mk (List.replicate (3 - s.length) '0' ++ s.toList)

/-- DaoService.generateNextDaoNumber, in-memory branch (service lines
  817-827): keep the entries whose numeroListe starts with DAO-year-, map
  each to its regex-extracted 3-digit suffix (0 when the pattern finds no
  match), and emit the prefix followed by max+1 zero-padded, or 001 when no
  entry matches the prefix. -/
def generateNextDaoNumber (daos : List Dao) (year : Nat) : String :=
  let pfx := "DAO-" ++ toString year ++ "-"
  let existing := daos.filter (fun d => jsStartsWith d.numeroListe pfx)
  if existing.isEmpty then pfx ++ "001"
  else
    let nums := existing.map
      (fun d => (scanDaoNum d.numeroListe.toList).getD 0)
    let next := match listMaxNat nums with
      | some m => m + 1
      | none => 1
    pfx ++ pad3 next

/-- Modelled from the spec (Numbering Allocator, section 4.2): collect the
  sequence numbers whose literal prefix is DAO-year-, extract the exact
  3-digit zero-padded numeric suffix, ignore non-matching values, and
  return the prefix with max+1 zero-padded, or 001 when no prior match
  exists.  Used as the specification side of the refinement theorem for
  the allocator. -/
def specSuffixOf (pfx s : String) : Option Nat :=
  if jsStartsWith s pfx then
    match s.toList.drop pfx.toList.length with
    | [a, b, c] =>
        if a.isDigit && b.isDigit && c.isDigit then
          some (charDigitVal a * 100 + charDigitVal b * 10 + charDigitVal c)
        else none
    | _ => none
  else none

/-- Modelled from the spec (Numbering Allocator, section 4.2): the
  allocator result described by the specification text. -/
def specNextNumber (daos : List Dao) (year : Nat) : String :=
  let pfx := "DAO-" ++ toString year ++ "-"
  match listMaxNat (daos.filterMap (fun d => specSuffixOf pfx d.numeroListe)) with
  | none => pfx ++ "001"
  | some m => pfx ++ pad3 (m + 1)

/-! ## Email fan-out (emailService.ts 45-53) -/

/-- Insertion into a JS Set iterated in insertion order: duplicates keep
  their first occurrence. -/
def jsSetDedup (l : List String) : List String :=
  go [] l
where
  go (seen : List String) : List String → List String
    | [] => []
    | x :: xs => if x ∈ seen then go seen xs else x :: go (x :: seen) xs

/-- EmailService.sendBulkNotification: drop falsy addresses, deduplicate,
  then attempt each address once, each attempt individually wrapped so a
  failure neither aborts the loop nor escapes; returns the sent counter and
  the attempt log (address, delivery succeeded).  send models
  sendNotificationEmail for the fixed subject/body of the call. -/
def sendBulkNotification (send : String → Except String Unit)
    (toList : List String) : Nat × List (String × Bool) :=
  let unique := jsSetDedup (toList.filter (fun a => a ≠ ""))
  (unique.length,
   unique.map (fun addr =>
     (addr, match send addr with
            | .ok _ => true
            | .error _ => false)))

/-! ## Best-effort notification step (the try/catch wrapping of every
  notification/email block in dao-simple.ts and tasks.ts) -/

/-- The catch-all wrapper around every notification/email block
  (for instance dao-simple.ts lines 192-211 and 666-728, tasks.ts lines
  82-101): whatever the downstream dispatch does, the handler proceeds to
  the success response. -/
def notifyStep {α : Type} (notifyResult : Except String Unit) (resp : α) :
    Except String α :=
  match notifyResult with
  | .ok _ => .ok resp
  | .error _ => .ok resp

/-- POST /api/dao pipeline after persistence: respond 201 with the created
  case file regardless of the notification outcome. -/
def createDaoPipeline (newDao : Dao) (notifyResult : Except String Unit) :
    Except String (Nat × Dao) :=
  notifyStep notifyResult (201, newDao)

/-- POST /api/dao/:daoId/tasks pipeline: persist the appended task, then
  notify best-effort, then respond 201. -/
def addTaskPipeline (dao : Dao) (req : CreateTaskRequest)
    (userId now : String) (notifyResult : Except String Unit) :
    Except String (Nat × Dao) :=
  let r := addTaskCore dao req userId now
  notifyStep notifyResult (201, r.1)

/-- PUT /api/dao/:id/tasks/:taskId pipeline: persist, notify best-effort,
  respond 200 (the error carries the machine-readable failure code). -/
def updateTaskPipeline (dao : Dao) (taskId : Nat) (req : TaskUpdateRequest)
    (userId now : String) (notifyResult : Except String Unit) :
    Except String (Nat × Dao) :=
  match updateTaskHandler dao taskId req userId now with
  | none => .error "TASK_NOT_FOUND"
  | some (updated, _events) => notifyStep notifyResult (200, updated)

/-- PUT /api/dao/:id/tasks/reorder pipeline. -/
def reorderPipeline (dao : Dao) (taskIds : List Nat) (now : String)
    (notifyResult : Except String Unit) : Except String (Nat × Dao) :=
  match reorderHandler dao taskIds now with
  | .error _ => .error "REORDER_REJECTED"
  | .ok updated => notifyStep notifyResult (200, updated)

/-- DELETE /api/dao/:daoId/tasks/:taskId pipeline. -/
def deleteTaskPipeline (dao : Dao) (taskId : Nat) (now : String)
    (notifyResult : Except String Unit) :
    Except String (Nat × Dao × DaoTask) :=
  match deleteTaskCore dao taskId now with
  | none => .error "TASK_NOT_FOUND"
  | some (updated, removed) => notifyStep notifyResult (200, updated, removed)

/-! ## Remaining pipelines for the best-effort notification policy -/

/-- Body application of PUT /api/dao/:daoId/tasks/:taskId/name
  (tasks.ts 160-173): sanitize and replace the name, restamp, persist;
  returns the updated case file and the old name (none models 404). -/
def renameTaskCore (dao : Dao) (taskId : Nat) (newName : String)
    (userId now : String) : Option (Dao × String) :=
  match dao.tasks.find? (fun t => t.id == taskId) with
  | none => none
  | some task =>
      some ({ dao with
                tasks := dao.tasks.set
                  (dao.tasks.findIdx (fun t => t.id == taskId))
                  { task with name := sanitizeString newName,
                              lastUpdatedBy := some userId,
                              lastUpdatedAt := some now },
                updatedAt := now }, task.name)

/-- Body of PUT /api/dao/:id (updateDaoSchema, partial). -/
structure DaoUpdateRequest where
  numeroListe : Option String
  objetDossier : Option String
  reference : Option String
  autoriteContractante : Option String
  equipe : Option (List TeamMember)
  tasks : Option (List DaoTask)
deriving DecidableEq

/-- The merge of PUT /api/dao/:id (dao-simple.ts 261-280 plus the spread in
  DaoService.updateDao): present fields are sanitized and replace the
  stored ones; dateDepot is never copied into the update. -/
def applyDaoUpdates (d : Dao) (u : DaoUpdateRequest) (now : String) : Dao :=
  { d with
      numeroListe := (u.numeroListe.map sanitizeString).getD d.numeroListe,
      objetDossier := (u.objetDossier.map sanitizeString).getD d.objetDossier,
      reference := (u.reference.map sanitizeString).getD d.reference,
      autoriteContractante :=
        (u.autoriteContractante.map sanitizeString).getD
          d.autoriteContractante,
      equipe := (u.equipe.map (List.map (fun m =>
        { m with name := sanitizeString m.name }))).getD d.equipe,
      tasks := u.tasks.getD d.tasks,
      updatedAt := now }

/-- PUT /api/dao/:id pipeline: merge and persist, notify best-effort,
  respond 200. -/
def putDaoPipeline (dao : Dao) (req : DaoUpdateRequest) (now : String)
    (notifyResult : Except String Unit) : Except String (Nat × Dao) :=
  notifyStep notifyResult (200, applyDaoUpdates dao req now)

/-- PUT /api/dao/:daoId/tasks/:taskId/name pipeline. -/
def renameTaskPipeline (dao : Dao) (taskId : Nat) (newName : String)
    (userId now : String) (notifyResult : Except String Unit) :
    Except String (Nat × Dao) :=
  match renameTaskCore dao taskId newName userId now with
  | none => .error "TASK_NOT_FOUND"
  | some (updated, _oldName) => notifyStep notifyResult (200, updated)

/-! ## Concrete fixtures -/

def exTaskC1 : DaoTask :=
  { id := 1, name := "Analyse", progress := some 50, comment := none,
    isApplicable := true, assignedTo := none,
    lastUpdatedBy := none, lastUpdatedAt := none }

def exDaoC1 : Dao :=
  { id := "d1", numeroListe := "DAO-2025-001", objetDossier := "Objet",
    reference := "REF", autoriteContractante := "AC",
    dateDepot := "2025-01-01", equipe := [], tasks := [exTaskC1],
    createdAt := "T0", updatedAt := "T0" }

def exTaskC5 : DaoTask :=
  { id := 3, name := "Suivi", progress := some 20, comment := none,
    isApplicable := true, assignedTo := some "Alice",
    lastUpdatedBy := none, lastUpdatedAt := none }

def exDaoC5 : Dao :=
  { id := "d5", numeroListe := "DAO-2025-003", objetDossier := "O",
    reference := "R", autoriteContractante := "A",
    dateDepot := "2025-01-01", equipe := [], tasks := [exTaskC5],
    createdAt := "T0", updatedAt := "T0" }

def exDaos2025 : List Dao :=
  [{ exDaoC1 with numeroListe := "DAO-2025-001" },
   { exDaoC1 with numeroListe := "DAO-2025-004" }]

/-! ## Lemmas about the sanitizer -/

theorem hasGt_append (a b : List Char) :
    hasGt (a ++ b) = (hasGt a || hasGt b) := by
  induction a with
  | nil => simp [hasGt]
  | cons c rest ih => simp [hasGt, ih, Bool.or_assoc]

theorem hasGt_reverse (l : List Char) : hasGt l.reverse = hasGt l := by
  induction l with
  | nil => rfl
  | cons c rest ih =>
      simp [hasGt, List.reverse_cons, hasGt_append, ih, Bool.or_comm]

theorem hasTag_of_hasGt_false {l : List Char} (h : hasGt l = false) :
    hasTag l = false := by
  induction l with
  | nil => rfl
  | cons c rest ih =>
      simp [hasGt] at h
      simp [hasTag, h.1, h.2, ih h.2]

theorem stripAux_some_of_hasGt_false {l : List Char} (h : hasGt l = false) :
    ∀ buf, stripAux l (some buf) = buf.reverse ++ l := by
  induction l with
  | nil => intro buf; simp [stripAux]
  | cons c rest ih =>
      intro buf
      simp [hasGt] at h
      have hc : ¬ c = '>' := by
        intro hc; rw [hc] at h; simp at h
      simp [stripAux, hc, ih h.2]

theorem stripAux_hasTag_false (l : List Char) :
    hasTag (stripAux l none) = false ∧
    ∀ buf, hasGt buf = false → hasTag (stripAux l (some buf)) = false := by
  induction l with
  | nil =>
      refine ⟨rfl, fun buf hb => ?_⟩
      simp only [stripAux]
      exact hasTag_of_hasGt_false (by rw [hasGt_reverse]; exact hb)
  | cons c rest ih =>
      constructor
      · by_cases hc : c = '<'
        · simp only [stripAux, if_pos hc]
          exact ih.2 [c] (by simp [hasGt, hc])
        · simp only [stripAux, if_neg hc]
          simp [hasTag, hc, ih.1]
      · intro buf hb
        by_cases hc : c = '>'
        · simp only [stripAux, if_pos hc]
          exact ih.1
        · simp only [stripAux, if_neg hc]
          exact ih.2 (c :: buf) (by simp [hasGt, hc, hb])

theorem stripAux_eq_self_of_hasTag_false {l : List Char}
    (h : hasTag l = false) : stripAux l none = l := by
  induction l with
  | nil => rfl
  | cons c rest ih =>
      rw [show hasTag (c :: rest) = ((c == '<' && hasGt rest) || hasTag rest)
        from rfl, Bool.or_eq_false_iff] at h
      obtain ⟨hA, hB⟩ := h
      by_cases hc : c = '<'
      · have hg : hasGt rest = false := by simpa [hc] using hA
        simp only [stripAux, if_pos hc]
        rw [stripAux_some_of_hasGt_false hg]
        simp [hc]
      · simp only [stripAux, if_neg hc]
        rw [ih hB]

theorem hasTag_append_false {a b : List Char}
    (h : hasTag (a ++ b) = false) :
    hasTag a = false ∧ hasTag b = false := by
  induction a with
  | nil => exact ⟨rfl, h⟩
  | cons c rest ih =>
      rw [List.cons_append,
        show hasTag (c :: (rest ++ b)) =
          ((c == '<' && hasGt (rest ++ b)) || hasTag (rest ++ b)) from rfl,
        Bool.or_eq_false_iff] at h
      obtain ⟨hA, hB⟩ := h
      have ih2 := ih hB
      refine ⟨?_, ih2.2⟩
      rw [show hasTag (c :: rest) = ((c == '<' && hasGt rest) || hasTag rest)
        from rfl, Bool.or_eq_false_iff]
      refine ⟨?_, ih2.1⟩
      rw [hasGt_append] at hA
      cases hcc : (c == '<') with
      | false => simp [hcc]
      | true =>
          rw [hcc] at hA
          simp at hA
          simp [hcc, hA.1]

theorem trimLeft_decomp (l : List Char) :
    l = l.takeWhile isJsSpace ++ trimLeft l := by
  rw [trimLeft, List.takeWhile_append_dropWhile]

theorem trimRight_decomp (l : List Char) :
    l = trimRight l ++ (l.reverse.takeWhile isJsSpace).reverse := by
  conv_lhs => rw [← List.reverse_reverse l,
    ← List.takeWhile_append_dropWhile (p := isJsSpace) (l := l.reverse)]
  rw [List.reverse_append]
  rfl

theorem hasTag_jsTrim_false {l : List Char} (h : hasTag l = false) :
    hasTag (jsTrim l) = false := by
  have h1 : hasTag (trimLeft l) = false := by
    have := trimLeft_decomp l
    rw [this] at h
    exact (hasTag_append_false h).2
  have h2 := trimRight_decomp (trimLeft l)
  rw [h2] at h1
  exact (hasTag_append_false h1).1

theorem dropWhile_dropWhile (p : Char → Bool) (l : List Char) :
    (l.dropWhile p).dropWhile p = l.dropWhile p := by
  induction l with
  | nil => rfl
  | cons c rest ih =>
      by_cases hc : p c
      · simp [List.dropWhile, hc, ih]
      · simp [List.dropWhile, hc]

theorem trimRight_trimRight (l : List Char) :
    trimRight (trimRight l) = trimRight l := by
  unfold trimRight
  rw [List.reverse_reverse, dropWhile_dropWhile]

theorem dropWhile_head_false {p : Char → Bool} {l t : List Char} {c : Char}
    (h : l.dropWhile p = c :: t) : p c = false := by
  induction l with
  | nil => exact absurd h (by simp)
  | cons a rest ih =>
      by_cases ha : p a
      · rw [List.dropWhile_cons_of_pos ha] at h
        exact ih h
      · rw [List.dropWhile_cons_of_neg ha] at h
        cases h
        exact Bool.of_not_eq_true ha

theorem trimLeft_trimRight_trimLeft (l : List Char) :
    trimLeft (trimRight (trimLeft l)) = trimRight (trimLeft l) := by
  cases hm : trimRight (trimLeft l) with
  | nil => rfl
  | cons c t =>
      have hdec := trimRight_decomp (trimLeft l)
      rw [hm] at hdec
      have hdw : l.dropWhile isJsSpace =
          c :: (t ++ (((l.dropWhile isJsSpace).reverse.takeWhile
            isJsSpace).reverse)) := by
        rw [← List.cons_append]
        exact hdec
      have hc : isJsSpace c = false := dropWhile_head_false hdw
      simp [trimLeft, List.dropWhile, hc]

theorem jsTrim_jsTrim (l : List Char) : jsTrim (jsTrim l) = jsTrim l := by
  show trimRight (trimLeft (trimRight (trimLeft l))) = jsTrim l
  rw [trimLeft_trimRight_trimLeft, trimRight_trimRight]
  rfl

theorem hasTag_of_decomp {l l1 l2 l3 : List Char}
    (h : l = l1 ++ '<' :: l2 ++ '>' :: l3) : hasTag l = true := by
  subst h
  induction l1 with
  | nil =>
      simp [hasTag, hasGt_append, hasGt]
  | cons c rest ih =>
      simp only [List.cons_append,
        show ∀ x xs, hasTag (x :: xs) = ((x == '<' && hasGt xs) || hasTag xs)
          from fun _ _ => rfl, Bool.or_eq_true]
      exact Or.inr (by simpa using ih)

/-- Claim C10: the free-text sanitizer (strip markup-like substrings, then
  trim) is idempotent, and its output never contains an angle-bracket tag
  substring: there is no decomposition of the output around a '<' that is
  followed by a later '>' (hence in particular no match of the tag
  pattern). -/
theorem sanitizeString_idempotent_and_tag_free (s : String) :
    sanitizeString (sanitizeString s) = sanitizeString s ∧
    ¬ ∃ l1 l2 l3 : List Char,
        (sanitizeString s).toList = l1 ++ '<' :: l2 ++ '>' :: l3 := by
  have hstrip : hasTag (stripAux s.toList none) = false :=
    (stripAux_hasTag_false s.toList).1
  have htrim : hasTag (jsTrim (stripAux s.toList none)) = false :=
    hasTag_jsTrim_false hstrip
  have hEq : (sanitizeString s).toList = jsTrim (stripAux s.toList none) :=
    rfl
  constructor
  · show String.mk (jsTrim (stripAux (sanitizeString s).toList none)) =
      sanitizeString s
    rw [hEq, stripAux_eq_self_of_hasTag_false htrim, jsTrim_jsTrim]
    rfl
  · rintro ⟨l1, l2, l3, hdec⟩
    have htrue := hasTag_of_decomp hdec
    rw [hEq, htrim] at htrue
    exact Bool.noConfusion htrue

/-- Claim C1, counterexample: on the PUT /api/dao/:id/tasks/:taskId handler,
  a request that sets isApplicable to false does not null the task's
  progress: starting from a task with progress 50, the persisted state
  right after the update has isApplicable false and progress still 50,
  contradicting the claimed invariant. -/
theorem updateTask_keeps_progress_when_inapplicable :
    (updateTaskHandler exDaoC1 1
        { progress := none, comment := none, isApplicable := some false,
          assignedTo := none } "u1" "T1").map
      (fun r => r.1.tasks.map (fun t => (t.id, t.isApplicable, t.progress)))
      = some [(1, false, some 50)] ∧
    some (50 : Int) ≠ (none : Option Int) := by
  exact ⟨rfl, by decide⟩

/-- Claim C1, amended: the progress-null-when-inapplicable rule is enforced
  at case-file creation (task normalization) and at add-task, but the
  task-field update endpoint does not enforce it: a supplied progress is
  applied verbatim and an existing progress is kept even when the same
  request sets isApplicable to false. -/
theorem progress_null_enforcement :
    (∀ (tpl : TaskTemplate) (userId now : String) (idx : Nat),
      tpl.isApplicable = false →
      (normalizeTask userId now idx tpl).progress = none) ∧
    (∀ (dao : Dao) (req : CreateTaskRequest) (userId now : String),
      req.isApplicable = false →
      (addTaskCore dao req userId now).2.progress = none) ∧
    (∀ (upd : TaskUpdateRequest) (t : DaoTask) (userId now : String),
      upd.isApplicable = some false →
      (applyTaskUpdate upd t userId now).progress =
        (match upd.progress with
         | some p => some p
         | none => t.progress)) := by
  refine ⟨fun tpl userId now idx h => ?_,
          fun dao req userId now h => ?_,
          fun upd t userId now h => ?_⟩
  · simp [normalizeTask, h]
  · simp [addTaskCore, h]
  · rcases upd with ⟨pr, cm, ap, asg⟩
    simp only at h
    subst h
    cases pr <;> cases cm <;> cases asg <;> simp [applyTaskUpdate]

/-- Witness for the amended claim C1 theorem at concrete inputs. -/
theorem progress_null_enforcement_witness :
    (normalizeTask "u" "T" 0
      { id := none, name := "N", isApplicable := false, progress := some 40,
        comment := none, assignedTo := none }).progress = none ∧
    (addTaskCore exDaoC1
      { name := "N", isApplicable := false, progress := some 40,
        comment := none, assignedTo := none } "u" "T").2.progress = none ∧
    (applyTaskUpdate
      { progress := some 70, comment := none, isApplicable := some false,
        assignedTo := none } exTaskC1 "u" "T").progress = some 70 := by
  refine ⟨progress_null_enforcement.1 _ "u" "T" 0 rfl,
          progress_null_enforcement.2.1 exDaoC1 _ "u" "T" rfl,
          ?_⟩
  exact progress_null_enforcement.2.2 _ exTaskC1 "u" "T" rfl

/-! ## Lemmas about listMaxNat -/

theorem listMaxNat_eq_none_iff {l : List Nat} :
    listMaxNat l = none ↔ l = [] := by
  cases l with
  | nil => simp [listMaxNat]
  | cons a xs => simp [listMaxNat]

theorem listMaxNat_le {l : List Nat} {m : Nat} (h : listMaxNat l = some m) :
    ∀ x ∈ l, x ≤ m := by
  induction l generalizing m with
  | nil => simp [listMaxNat] at h
  | cons a xs ih =>
      intro x hx
      rw [listMaxNat] at h
      cases hxs : listMaxNat xs with
      | none =>
          rw [hxs] at h
          simp at h
          have hxe : xs = [] := listMaxNat_eq_none_iff.mp hxs
          subst hxe
          simp at hx
          omega
      | some m2 =>
          rw [hxs] at h
          simp at h
          rcases List.mem_cons.mp hx with hx1 | hx2
          · subst hx1; omega
          · have := ih hxs x hx2
            omega

theorem listMaxNat_mem {l : List Nat} {m : Nat} (h : listMaxNat l = some m) :
    m ∈ l := by
  induction l generalizing m with
  | nil => simp [listMaxNat] at h
  | cons a xs ih =>
      rw [listMaxNat] at h
      cases hxs : listMaxNat xs with
      | none =>
          rw [hxs] at h
          simp at h
          simp [h]
      | some m2 =>
          rw [hxs] at h
          simp at h
          subst h
          rcases Nat.le_total a m2 with hle | hle
          · rw [Nat.max_eq_right hle]
            exact List.mem_cons_of_mem a (ih hxs)
          · rw [Nat.max_eq_left hle]
            exact List.mem_cons_self a xs

/-- Claim C3, counterexample: on a case file with tasks 1 and 2, deleting
  task 2 and then adding a task yields the new id 2, that is the id of the
  task just deleted — a deleted id is reused whenever the deleted task held
  the maximum id. -/
theorem addTask_reuses_deleted_id :
    (deleteTaskCore
      { id := "d3", numeroListe := "DAO-2025-002", objetDossier := "O",
        reference := "R", autoriteContractante := "A",
        dateDepot := "2025-01-01", equipe := [],
        tasks := [{ id := 1, name := "A", progress := none, comment := none,
                    isApplicable := true, assignedTo := none,
                    lastUpdatedBy := none, lastUpdatedAt := none },
                  { id := 2, name := "B", progress := none, comment := none,
                    isApplicable := true, assignedTo := none,
                    lastUpdatedBy := none, lastUpdatedAt := none }],
        createdAt := "T0", updatedAt := "T0" } 2 "T1").map
      (fun r => (r.2.id,
        (addTaskCore r.1
          { name := "C", isApplicable := true, progress := none,
            comment := none, assignedTo := none } "u" "T2").2.id))
      = some (2, 2) := by
  rfl

/-- Claim C3, amended: the added task is appended at the end with id equal
  to one greater than the maximum existing id (1 when the list is empty),
  which is strictly greater than every currently present id — ids of
  currently present tasks are never reused, but the id of a previously
  deleted task may be (see the counterexample). -/
theorem addTask_id_allocation (dao : Dao) (req : CreateTaskRequest)
    (userId now : String) :
    (addTaskCore dao req userId now).1.tasks
      = dao.tasks ++ [(addTaskCore dao req userId now).2] ∧
    (addTaskCore dao req userId now).2.id = newTaskId dao.tasks ∧
    (∀ t ∈ dao.tasks, t.id < (addTaskCore dao req userId now).2.id) ∧
    (dao.tasks = [] → (addTaskCore dao req userId now).2.id = 1) ∧
    (dao.tasks ≠ [] → ∃ tmax ∈ dao.tasks,
      (addTaskCore dao req userId now).2.id = tmax.id + 1 ∧
      ∀ t ∈ dao.tasks, t.id ≤ tmax.id) := by
  refine ⟨rfl, rfl, ?_, ?_, ?_⟩
  · intro t ht
    show t.id < newTaskId dao.tasks
    rw [newTaskId]
    cases h : listMaxNat (dao.tasks.map (·.id)) with
    | none =>
        have : dao.tasks = [] :=
          List.map_eq_nil_iff.mp (listMaxNat_eq_none_iff.mp h)
        simp [this] at ht
    | some m =>
        have := listMaxNat_le h t.id (List.mem_map_of_mem (·.id) ht)
        simp only []
        omega
  · intro h
    show newTaskId dao.tasks = 1
    rw [newTaskId, h]
    rfl
  · intro h
    show ∃ tmax ∈ dao.tasks, newTaskId dao.tasks = tmax.id + 1 ∧
      ∀ t ∈ dao.tasks, t.id ≤ tmax.id
    cases hm : listMaxNat (dao.tasks.map (·.id)) with
    | none =>
        exact absurd (List.map_eq_nil_iff.mp (listMaxNat_eq_none_iff.mp hm)) h
    | some m =>
        have hmem := listMaxNat_mem hm
        rcases List.mem_map.mp hmem with ⟨tmax, htmax, hid⟩
        refine ⟨tmax, htmax, ?_, ?_⟩
        · rw [newTaskId, hm, hid]
        · intro t ht
          rw [hid]
          exact listMaxNat_le hm t.id (List.mem_map_of_mem (·.id) ht)

/-- Witness for the amended claim C3 theorem: the two implications
  discharged at the one-task fixture. -/
theorem addTask_id_allocation_witness :
    ((addTaskCore exDaoC1
        { name := "C", isApplicable := true, progress := none,
          comment := none, assignedTo := none } "u" "T").2.id = 2) ∧
    (exDaoC1.tasks ≠ []) := by
  have h := addTask_id_allocation exDaoC1
    { name := "C", isApplicable := true, progress := none,
      comment := none, assignedTo := none } "u" "T"
  have hempty : ¬ (exDaoC1.tasks = []) := by decide
  have h1 := h.2.2.2.1
  refine ⟨?_, hempty⟩
  rcases h.2.2.2.2 hempty with ⟨tmax, htmax, hEq, _⟩
  have htm : tmax = exTaskC1 := by
    have hl : exDaoC1.tasks = [exTaskC1] := rfl
    rw [hl] at htmax
    simpa using htmax
  rw [hEq, htm]
  rfl

/-! ## Lemmas about enumFrom -/

theorem map_enumFrom_snd {α β : Type} (f : α → β) (start : Nat)
    (l : List α) :
    (List.enumFrom start l).map (fun p => f p.2) = l.map f := by
  induction l generalizing start with
  | nil => rfl
  | cons a xs ih => simp only [List.enumFrom, List.map_cons, ih]

theorem length_enumFrom' {α : Type} (start : Nat) (l : List α) :
    (List.enumFrom start l).length = l.length := by
  induction l generalizing start with
  | nil => rfl
  | cons a xs ih => simp only [List.enumFrom, List.length_cons, ih]

theorem snd_mem_of_mem_enumFrom' {α : Type} {p : Nat × α} {s : Nat}
    {l : List α} (h : p ∈ List.enumFrom s l) : p.2 ∈ l := by
  induction l generalizing s with
  | nil => simp [List.enumFrom] at h
  | cons a xs ih =>
      simp only [List.enumFrom, List.mem_cons] at h
      rcases h with h | h
      · subst h; exact List.mem_cons_self a xs
      · exact List.mem_cons_of_mem a (ih h)

/-- Claim C4: a create request that supplies no tasks seeds the case file
  from the default checklist template: one task per template entry, in
  template order with sanitized names, and every seeded task has null
  progress and carries no comment text (the falsy seeded comment is stored
  as an absent field, so the observable comment text is empty). -/
theorem createDao_seeds_default_template (defaults : List TaskTemplate)
    (userId now : String) :
    (seedCreateTasks [] defaults userId now).length = defaults.length ∧
    (seedCreateTasks [] defaults userId now).map (·.name)
      = defaults.map (fun d => sanitizeString d.name) ∧
    (∀ t ∈ seedCreateTasks [] defaults userId now,
      t.progress = none ∧ t.comment = none ∧ t.comment.getD "" = "") := by
  have hbase : seedCreateTasks [] defaults userId now
      = ((defaults.map (fun t : TaskTemplate =>
            ({ t with progress := none,
                      comment := some "" } : TaskTemplate))).enum).map
          (fun p => normalizeTask userId now p.1 p.2) := rfl
  refine ⟨?_, ?_, ?_⟩
  · rw [hbase, List.length_map, List.enum, length_enumFrom',
      List.length_map]
  · rw [hbase, List.map_map, List.enum]
    have : ((fun t : DaoTask => t.name) ∘
        (fun p : Nat × TaskTemplate => normalizeTask userId now p.1 p.2))
        = fun p : Nat × TaskTemplate => sanitizeString p.2.name := rfl
    rw [this, map_enumFrom_snd (fun t : TaskTemplate =>
      sanitizeString t.name) 0, List.map_map]
    rfl
  · intro t ht
    rw [hbase] at ht
    rcases List.mem_map.mp ht with ⟨p, hp, hpt⟩
    have h2 := snd_mem_of_mem_enumFrom' (s := 0) hp
    rcases List.mem_map.mp h2 with ⟨d, _, hd⟩
    subst hpt
    rw [← hd]
    refine ⟨?_, ?_, ?_⟩ <;> simp [normalizeTask]

/-! ## Lemmas about find? by task id -/

theorem find?_id_some {tasks : List DaoTask} {tid : Nat}
    (h : tid ∈ tasks.map (·.id)) :
    ∃ t, tasks.find? (fun t => t.id == tid) = some t ∧ t.id = tid ∧
      t ∈ tasks := by
  induction tasks with
  | nil => simp at h
  | cons t rest ih =>
      by_cases ht : t.id = tid
      · exact ⟨t, by rw [List.find?_cons_of_pos _ (by simp [ht])], ht,
          List.mem_cons_self t rest⟩
      · have h2 : tid ∈ rest.map (·.id) := by
          simp at h
          rcases h with h | h
          · exact absurd h.symm ht
          · simpa using h
        rcases ih h2 with ⟨u, hu1, hu2, hu3⟩
        exact ⟨u, by rw [List.find?_cons_of_neg _ (by simp [ht]), hu1], hu2,
          List.mem_cons_of_mem t hu3⟩

theorem filterMap_find?_map_id {tasks : List DaoTask} {tids : List Nat}
    (h : ∀ tid ∈ tids, tid ∈ tasks.map (·.id)) :
    (tids.filterMap (fun tid => tasks.find? (fun t => t.id == tid))).map
      (·.id) = tids := by
  induction tids with
  | nil => rfl
  | cons tid rest ih =>
      rcases find?_id_some (h tid (List.mem_cons_self tid rest)) with
        ⟨t, ht1, ht2, _⟩
      rw [List.filterMap_cons, ht1, List.map_cons, ht2,
        ih (fun x hx => h x (List.mem_cons_of_mem tid hx))]

theorem self_filterMap_find? {tasks : List DaoTask}
    (hn : (tasks.map (·.id)).Nodup) :
    (tasks.map (·.id)).filterMap
      (fun tid => tasks.find? (fun t => t.id == tid)) = tasks := by
  induction tasks with
  | nil => rfl
  | cons t rest ih =>
      rw [List.map_cons, List.nodup_cons] at hn
      rw [List.map_cons, List.filterMap_cons]
      have hhead : (t :: rest).find? (fun u => u.id == t.id) = some t :=
        List.find?_cons_of_pos _ (by simp)
      rw [hhead]
      have hcongr : (rest.map (·.id)).filterMap
          (fun tid => (t :: rest).find? (fun u => u.id == tid))
          = (rest.map (·.id)).filterMap
            (fun tid => rest.find? (fun u => u.id == tid)) := by
        apply List.filterMap_congr
        intro tid htid
        have : t.id ≠ tid := fun hEq => hn.1 (hEq ▸ htid)
        rw [List.find?_cons_of_neg _ (by simp [this])]
      rw [hcongr, ih hn.2]

/-- Claim C2, counterexample: on a case file holding one task, the reorder
  request with the empty id list is a count mismatch, yet it is rejected
  with INVALID_TASK_IDS (the empty-array guard fires first), not with the
  INCOMPLETE_TASK_LIST code the claim assigns to count mismatches. -/
theorem reorder_empty_list_error_code :
    reorderHandler exDaoC1 [] "T1" = .error .invalidTaskIds ∧
    ([] : List Nat).length ≠ exDaoC1.tasks.length ∧
    ReorderError.invalidTaskIds ≠ ReorderError.incompleteTaskList := by
  refine ⟨rfl, by decide, by decide⟩

/-- Claim C2, amended: for a case file whose task ids are distinct (the
  documented id-uniqueness invariant), a non-empty id list that is a
  permutation of the current id set is applied exactly: the stored list
  holds the same tasks (a permutation of the originals, same count) in the
  requested order.  Everything else is rejected with no change: an empty
  list or a list containing an unknown id with INVALID_TASK_IDS, and a
  non-empty list of known ids that is not a permutation (count mismatch or
  missing id) with INCOMPLETE_TASK_LIST. -/
theorem reorder_spec (dao : Dao) (taskIds : List Nat) (now : String)
    (hn : (dao.tasks.map (·.id)).Nodup) :
    (taskIds = [] →
      reorderHandler dao taskIds now = .error .invalidTaskIds) ∧
    ((∃ tid ∈ taskIds, tid ∉ dao.tasks.map (·.id)) →
      reorderHandler dao taskIds now = .error .invalidTaskIds) ∧
    (taskIds ≠ [] → (∀ tid ∈ taskIds, tid ∈ dao.tasks.map (·.id)) →
      ¬ taskIds.Perm (dao.tasks.map (·.id)) →
      reorderHandler dao taskIds now = .error .incompleteTaskList) ∧
    (taskIds ≠ [] → taskIds.Perm (dao.tasks.map (·.id)) →
      ∃ d', reorderHandler dao taskIds now = .ok d' ∧
        d'.tasks.Perm dao.tasks ∧ d'.tasks.map (·.id) = taskIds ∧
        d'.tasks.length = dao.tasks.length) := by
  refine ⟨?_, ?_, ?_, ?_⟩
  · intro h
    rw [reorderHandler, if_pos h]
  · rintro ⟨tid, htid, hnot⟩
    have hne : taskIds ≠ [] := List.ne_nil_of_mem htid
    have hinv : taskIds.filter
        (fun tid => tid ∉ dao.tasks.map (·.id)) ≠ [] :=
      List.ne_nil_of_mem (List.mem_filter.mpr ⟨htid, by simpa using hnot⟩)
    rw [reorderHandler, if_neg hne]
    simp only []
    rw [if_pos hinv]
  · intro hne hsub hnp
    have hinv : taskIds.filter
        (fun tid => tid ∉ dao.tasks.map (·.id)) = [] :=
      List.filter_eq_nil_iff.mpr (fun tid htid => by
        simpa using hsub tid htid)
    have hcond : taskIds.length ≠ dao.tasks.length ∨
        ¬ (∀ tid ∈ dao.tasks.map (·.id), tid ∈ taskIds) := by
      by_contra hcontra
      push_neg at hcontra
      have hsubset : dao.tasks.map (·.id) ⊆ taskIds :=
        fun a ha => hcontra.2 a ha
      have hsp := List.subperm_of_subset hn hsubset
      have hlen : taskIds.length ≤ (dao.tasks.map (·.id)).length := by
        rw [List.length_map]
        exact Nat.le_of_eq hcontra.1
      exact hnp (hsp.perm_of_length_le hlen).symm
    rw [reorderHandler, if_neg hne]
    simp only []
    rw [if_neg (by simpa using hinv), if_pos hcond]
  · intro hne hperm
    have hids : ∀ tid ∈ taskIds, tid ∈ dao.tasks.map (·.id) :=
      fun tid htid => hperm.mem_iff.mp htid
    have hinv : taskIds.filter
        (fun tid => tid ∉ dao.tasks.map (·.id)) = [] :=
      List.filter_eq_nil_iff.mpr (fun tid htid => by
        simpa using hids tid htid)
    have hlen : taskIds.length = dao.tasks.length := by
      have := hperm.length_eq
      rwa [List.length_map] at this
    have hall : ∀ tid ∈ dao.tasks.map (·.id), tid ∈ taskIds :=
      fun tid htid => hperm.symm.mem_iff.mp htid
    have hcond : ¬ (taskIds.length ≠ dao.tasks.length ∨
        ¬ (∀ tid ∈ dao.tasks.map (·.id), tid ∈ taskIds)) := by
      push_neg
      exact ⟨hlen, hall⟩
    have hstep := hperm.filterMap
      (fun tid => dao.tasks.find? (fun t => t.id == tid))
    rw [self_filterMap_find? hn] at hstep
    refine ⟨{ dao with
                tasks := taskIds.filterMap
                  (fun tid => dao.tasks.find? (fun t => t.id == tid)),
                updatedAt := now }, ?_, hstep, filterMap_find?_map_id hids,
            hstep.length_eq⟩
    rw [reorderHandler, if_neg hne]
    simp only []
    rw [if_neg (by simpa using hinv), if_neg hcond]

/-- Witness for the amended claim C2 theorem: all four branches discharged
  at concrete inputs on the one-task fixture. -/
theorem reorder_spec_witness :
    reorderHandler exDaoC1 [] "T1" = .error .invalidTaskIds ∧
    reorderHandler exDaoC1 [7] "T1" = .error .invalidTaskIds ∧
    reorderHandler exDaoC1 [1, 1] "T1" = .error .incompleteTaskList ∧
    ∃ d', reorderHandler exDaoC1 [1] "T1" = .ok d' ∧
      d'.tasks.Perm exDaoC1.tasks ∧ d'.tasks.map (·.id) = [1] ∧
      d'.tasks.length = exDaoC1.tasks.length := by
  have hn : (exDaoC1.tasks.map (·.id)).Nodup := by decide
  refine ⟨(reorder_spec exDaoC1 [] "T1" hn).1 rfl,
          (reorder_spec exDaoC1 [7] "T1" hn).2.1
            ⟨7, by decide, by decide⟩,
          (reorder_spec exDaoC1 [1, 1] "T1" hn).2.2.1 (by decide)
            (by decide) ?_,
          (reorder_spec exDaoC1 [1] "T1" hn).2.2.2 (by decide) ?_⟩
  · intro hperm
    have := hperm.length_eq
    simp [exDaoC1] at this
  · show [1].Perm (exDaoC1.tasks.map (·.id))
    have : exDaoC1.tasks.map (·.id) = [1] := rfl
    rw [this]

/-! ## Claim C5: assignee transfer notification -/

/-- Claim C5: a task update that only changes the assignee from member a to
  member b produces exactly the single change entry "réassignée (a → b)",
  and the handler broadcasts exactly one event, of kind task_assigned (so
  none of kind task_updated), referencing the task's id. -/
theorem updateTask_reassign_single_event
    (dao : Dao) (tid : Nat) (t : DaoTask) (a b : String)
    (userId now : String)
    (hfind : dao.tasks.find? (fun u => u.id == tid) = some t)
    (ha : t.assignedTo = some a) (hane : a ≠ "")
    (hbne : sanitizeString b ≠ "") (hab : sanitizeString b ≠ a) :
    taskChangeList t (applyTaskUpdate
        { progress := none, comment := none, isApplicable := none,
          assignedTo := some b } t userId now)
      = ["réassignée (" ++ a ++ " → " ++ sanitizeString b ++ ")"] ∧
    (updateTaskHandler dao tid
        { progress := none, comment := none, isApplicable := none,
          assignedTo := some b } userId now).map Prod.snd
      = some [{ kind := .task_assigned, daoId := dao.id,
                taskId := some t.id, changes := [],
                assignedTo := some (sanitizeString b) }] := by
  have ht' : applyTaskUpdate
      { progress := none, comment := none, isApplicable := none,
        assignedTo := some b } t userId now
      = { t with assignedTo := some (sanitizeString b),
                 lastUpdatedBy := some userId,
                 lastUpdatedAt := some now } := rfl
  have hneq : t.assignedTo ≠ some (sanitizeString b) := by
    rw [ha]
    intro hEq
    exact hab (Option.some.injEq _ _ ▸ hEq).symm
  constructor
  · rw [ht']
    simp only [taskChangeList]
    rw [if_neg (by simp), if_neg (by simp), if_neg (by simp),
      if_pos (by simpa using hneq)]
    simp [ha, hane]
  · simp only [updateTaskHandler, hfind, Option.map_some]
    simp only [updateTaskEvents, ht']
    rw [if_pos (by simpa using hneq)]
    simp [strTruthy, hbne]

/-- Witness for the claim C5 theorem at a concrete reassignment from Alice
  to Bob on task 3. -/
theorem updateTask_reassign_single_event_witness :
    taskChangeList exTaskC5 (applyTaskUpdate
        { progress := none, comment := none, isApplicable := none,
          assignedTo := some "Bob" } exTaskC5 "u" "T")
      = ["réassignée (Alice → Bob)"] ∧
    (updateTaskHandler exDaoC5 3
        { progress := none, comment := none, isApplicable := none,
          assignedTo := some "Bob" } "u" "T").map Prod.snd
      = some [{ kind := .task_assigned, daoId := "d5",
                taskId := some 3, changes := [],
                assignedTo := some "Bob" }] := by
  have h := updateTask_reassign_single_event exDaoC5 3 exTaskC5 "Alice"
    "Bob" "u" "T" rfl rfl (by decide) (by decide) (by decide)
  refine ⟨?_, ?_⟩
  · rw [h.1]
    rfl
  · rw [h.2]
    rfl

/-! ## Claim C6: when the generic dao_updated broadcast fires -/

theorem putTaskEvents_kind (daoId : String)
    (beforeTasks afterTasks : List DaoTask) :
    ∀ e ∈ putTaskEvents daoId beforeTasks afterTasks,
      e.kind = .task_updated := by
  intro e he
  rcases List.mem_filterMap.mp he with ⟨t, _, hft⟩
  cases hfind : beforeTasks.find? (fun p => p.id == t.id) with
  | none => rw [hfind] at hft; cases hft
  | some prev =>
      simp only [hfind] at hft
      by_cases hd : (putTaskDiffs prev t).isEmpty
      · rw [if_pos hd] at hft; cases hft
      · rw [if_neg hd] at hft
        cases hft
        rfl

theorem generic_iff_aux (A B C : List NotificationEvent) (cf : List String)
    (dEv : NotificationEvent)
    (hA : ∀ e ∈ A, e.kind = .role_update)
    (hB : ∀ e ∈ B, e.kind = .task_updated)
    (hC : C = if cf ≠ [] ∨ ¬ (B ≠ []) then [dEv] else [])
    (hdk : dEv.kind = .dao_updated) :
    ((A ++ B ++ C).filter (fun e => e.kind == .dao_updated) ≠ []) ↔
    (cf ≠ [] ∨
      (A ++ B ++ C).filter (fun e => e.kind == .task_updated) = []) := by
  have hAd : A.filter (fun e => e.kind == .dao_updated) = [] :=
    List.filter_eq_nil_iff.mpr (fun e he => by simp [hA e he])
  have hBd : B.filter (fun e => e.kind == .dao_updated) = [] :=
    List.filter_eq_nil_iff.mpr (fun e he => by simp [hB e he])
  have hAt : A.filter (fun e => e.kind == .task_updated) = [] :=
    List.filter_eq_nil_iff.mpr (fun e he => by simp [hA e he])
  have hBt : B.filter (fun e => e.kind == .task_updated) = B :=
    List.filter_eq_self.mpr (fun e he => by simp [hB e he])
  have hCt : C.filter (fun e => e.kind == .task_updated) = [] := by
    rw [hC]
    split
    · simp [hdk]
    · rfl
  rw [List.filter_append, List.filter_append, List.filter_append,
    List.filter_append, hAd, hBd, hAt, hBt, hCt, List.nil_append,
    List.nil_append, List.append_nil]
  rw [hC]
  split
  · rename_i h
    have hd : ([dEv].filter (fun e => e.kind == .dao_updated)) = [dEv] := by
      simp [hdk]
    rw [hd]
    constructor
    · intro _
      rcases h with h | h
      · exact Or.inl h
      · exact Or.inr (not_not.mp h)
    · intro _
      simp
  · rename_i h
    push_neg at h
    simp [h.1, h.2]

/-- Claim C6: in the PUT /api/dao/:id handler, the generic dao_updated
  broadcast fires iff a non-task header field changed or no task-level
  task_updated broadcast was emitted by the same request (team role_update
  broadcasts do not suppress it). -/
theorem putDao_generic_event_iff (before updated : Dao)
    (equipeSupplied tasksSupplied : Bool) :
    ((putDaoEvents before updated equipeSupplied tasksSupplied).filter
        (fun e => e.kind == .dao_updated) ≠ []) ↔
    (daoChangedFields before updated ≠ [] ∨
      (putDaoEvents before updated equipeSupplied tasksSupplied).filter
        (fun e => e.kind == .task_updated) = []) := by
  have hA : ∀ e ∈ (if equipeSupplied ∧
      teamChanges before.equipe updated.equipe ≠ [] then
      [{ kind := .role_update, daoId := updated.id,
         changes := teamChanges before.equipe updated.equipe }] else
      ([] : List NotificationEvent)), e.kind = .role_update := by
    split
    · intro e he
      rw [List.mem_singleton.mp he]
    · intro e he
      cases he
  have hB : ∀ e ∈ (if tasksSupplied then
      putTaskEvents updated.id before.tasks updated.tasks else
      ([] : List NotificationEvent)), e.kind = .task_updated := by
    split
    · exact putTaskEvents_kind _ _ _
    · intro e he
      cases he
  exact generic_iff_aux _ _ _ _
    { kind := .dao_updated, daoId := updated.id,
      changes := daoChangedFields before updated } hA hB rfl rfl

/-! ## Claim C7: the numbering allocator -/

theorem string_toList_append (a b : String) :
    (a ++ b).toList = a.toList ++ b.toList := String.data_append a b

theorem scanDaoNum_exact {y1 y2 y3 y4 a b c : Char}
    (h1 : y1.isDigit = true) (h2 : y2.isDigit = true)
    (h3 : y3.isDigit = true) (h4 : y4.isDigit = true)
    (h5 : a.isDigit = true) (h6 : b.isDigit = true)
    (h7 : c.isDigit = true) :
    scanDaoNum ('D' :: 'A' :: 'O' :: '-' :: y1 :: y2 :: y3 :: y4 ::
        '-' :: a :: b :: c :: [])
      = some (charDigitVal a * 100 + charDigitVal b * 10 +
          charDigitVal c) := by
  rw [scanDaoNum]
  simp [tryMatchAt, h1, h2, h3, h4, h5, h6, h7]

theorem scan_of_wellformed {s : String} {year : Nat} {v : Nat}
    (hy : ∃ y1 y2 y3 y4, (toString year).toList = [y1, y2, y3, y4] ∧
      y1.isDigit = true ∧ y2.isDigit = true ∧ y3.isDigit = true ∧
      y4.isDigit = true)
    (hpre : jsStartsWith s ("DAO-" ++ toString year ++ "-") = true)
    (hsuf : specSuffixOf ("DAO-" ++ toString year ++ "-") s = some v) :
    scanDaoNum s.toList = some v := by
  obtain ⟨y1, y2, y3, y4, hYs, hd1, hd2, hd3, hd4⟩ := hy
  have hPL : ("DAO-" ++ toString year ++ "-").toList
      = 'D' :: 'A' :: 'O' :: '-' :: y1 :: y2 :: y3 :: y4 :: '-' :: [] := by
    rw [string_toList_append, string_toList_append, hYs]
    rfl
  rcases List.isPrefixOf_iff_prefix.mp hpre with ⟨tl, htl⟩
  rw [specSuffixOf, if_pos hpre] at hsuf
  have hdrop : s.toList.drop
      ("DAO-" ++ toString year ++ "-").toList.length = tl := by
    rw [← htl]
    exact List.drop_left _ _
  rw [hdrop] at hsuf
  rcases tl with _ | ⟨a, _ | ⟨b, _ | ⟨c, _ | ⟨d, tl2⟩⟩⟩⟩
  · exact Option.noConfusion hsuf
  · exact Option.noConfusion hsuf
  · exact Option.noConfusion hsuf
  · have hsuf2 : (if (a.isDigit && b.isDigit && c.isDigit) = true then
        some (charDigitVal a * 100 + charDigitVal b * 10 + charDigitVal c)
      else none) = some v := hsuf
    by_cases hdig : (a.isDigit && b.isDigit && c.isDigit) = true
    · rw [if_pos hdig, Option.some.injEq] at hsuf2
      rcases Bool.and_eq_true_iff.mp hdig with ⟨hab, hc⟩
      rcases Bool.and_eq_true_iff.mp hab with ⟨ha, hb⟩
      rw [← htl, hPL]
      simp only [List.cons_append, List.nil_append]
      rw [scanDaoNum_exact hd1 hd2 hd3 hd4 ha hb hc, hsuf2]
    · rw [if_neg hdig] at hsuf2
      exact Option.noConfusion hsuf2
  · exact Option.noConfusion hsuf

theorem align_suffixes {daos : List Dao} {year : Nat}
    (hy : ∃ y1 y2 y3 y4, (toString year).toList = [y1, y2, y3, y4] ∧
      y1.isDigit = true ∧ y2.isDigit = true ∧ y3.isDigit = true ∧
      y4.isDigit = true)
    (hwf : ∀ d ∈ daos,
      jsStartsWith d.numeroListe ("DAO-" ++ toString year ++ "-") = true →
      specSuffixOf ("DAO-" ++ toString year ++ "-") d.numeroListe ≠ none) :
    daos.filterMap (fun d =>
        specSuffixOf ("DAO-" ++ toString year ++ "-") d.numeroListe)
      = (daos.filter (fun d =>
          jsStartsWith d.numeroListe ("DAO-" ++ toString year ++ "-"))).map
        (fun d => (scanDaoNum d.numeroListe.toList).getD 0) := by
  induction daos with
  | nil => rfl
  | cons d rest ih =>
      have ihr := ih (fun x hx => hwf x (List.mem_cons_of_mem d hx))
      by_cases hs : jsStartsWith d.numeroListe
          ("DAO-" ++ toString year ++ "-") = true
      · rcases Option.ne_none_iff_exists'.mp
          (hwf d (List.mem_cons_self d rest) hs) with ⟨v, hv⟩
        rw [List.filterMap_cons, hv, List.filter_cons, if_pos (by simp [hs]),
          List.map_cons, scan_of_wellformed hy hs hv]
        rw [ihr]
        rfl
      · have hnone : specSuffixOf ("DAO-" ++ toString year ++ "-")
            d.numeroListe = none := by
          rw [specSuffixOf, if_neg hs]
        rw [List.filterMap_cons, hnone, List.filter_cons,
          if_neg (by simpa using hs), ihr]

/-- Claim C7: the in-memory numbering allocator refines the specification
  algorithm: whenever the year renders as four digits and every stored
  sequence number that starts with the DAO-year- prefix is well-formed
  (prefix followed by exactly three digits), the produced number is the
  prefix followed by max+1 zero-padded to three digits, or 001 when no
  stored number matches the prefix; entries that do not match the prefix
  are ignored. -/
theorem generateNext_refines_spec (daos : List Dao) (year : Nat)
    (hy : ∃ y1 y2 y3 y4, (toString year).toList = [y1, y2, y3, y4] ∧
      y1.isDigit = true ∧ y2.isDigit = true ∧ y3.isDigit = true ∧
      y4.isDigit = true)
    (hwf : ∀ d ∈ daos,
      jsStartsWith d.numeroListe ("DAO-" ++ toString year ++ "-") = true →
      specSuffixOf ("DAO-" ++ toString year ++ "-") d.numeroListe ≠ none) :
    generateNextDaoNumber daos year = specNextNumber daos year := by
  have hgen : generateNextDaoNumber daos year =
      (if (daos.filter (fun d => jsStartsWith d.numeroListe
            ("DAO-" ++ toString year ++ "-"))).isEmpty then
        ("DAO-" ++ toString year ++ "-") ++ "001"
       else ("DAO-" ++ toString year ++ "-") ++ pad3
        (match listMaxNat ((daos.filter (fun d => jsStartsWith d.numeroListe
            ("DAO-" ++ toString year ++ "-"))).map
          (fun d => (scanDaoNum d.numeroListe.toList).getD 0)) with
         | some m => m + 1
         | none => 1)) := rfl
  have hspec : specNextNumber daos year =
      (match listMaxNat (daos.filterMap (fun d =>
          specSuffixOf ("DAO-" ++ toString year ++ "-") d.numeroListe)) with
       | none => ("DAO-" ++ toString year ++ "-") ++ "001"
       | some m => ("DAO-" ++ toString year ++ "-") ++ pad3 (m + 1)) := rfl
  rw [hgen, hspec, align_suffixes hy hwf]
  by_cases hE : daos.filter (fun d => jsStartsWith d.numeroListe
      ("DAO-" ++ toString year ++ "-")) = []
  · rw [hE]
    rfl
  · rcases List.exists_cons_of_ne_nil hE with ⟨e, es, hcons⟩
    rw [hcons]
    cases hm : listMaxNat ((e :: es).map
        (fun d => (scanDaoNum d.numeroListe.toList).getD 0)) with
    | none =>
        rw [List.map_cons, listMaxNat] at hm
        cases hm
    | some m =>
        simp only [hm]
        rfl

/-- Witness for the claim C7 theorem: with existing numbers 001 and 004 in
  year 2025 the allocator returns 005 and agrees with the specification
  algorithm, and with no existing entries it returns 001. -/
theorem generateNext_refines_spec_witness :
    generateNextDaoNumber exDaos2025 2025 = specNextNumber exDaos2025 2025 ∧
    generateNextDaoNumber exDaos2025 2025 = "DAO-2025-005" ∧
    generateNextDaoNumber [] 2025 = "DAO-2025-001" := by
  refine ⟨generateNext_refines_spec exDaos2025 2025
    ⟨'2', '0', '2', '5', rfl, rfl, rfl, rfl, rfl⟩ (by decide), ?_, ?_⟩
  · rfl
  · rfl

/-- Claim C8: for every mutation operation, once the persistence step has
  produced the updated state, a failing notification/email step (the
  .error argument) is swallowed: the pipeline still answers with the
  success status and the updated state, identical to the all-notifications-
  succeed run, and the persisted mutation is kept. -/
theorem notify_failure_swallowed
    (newDao dao : Dao) (reqT : CreateTaskRequest) (reqU : TaskUpdateRequest)
    (reqD : DaoUpdateRequest) (taskIds : List Nat) (taskId : Nat)
    (newName userId now : String) (e : String) :
    createDaoPipeline newDao (.error e) = .ok (201, newDao) ∧
    createDaoPipeline newDao (.error e) = createDaoPipeline newDao (.ok ()) ∧
    addTaskPipeline dao reqT userId now (.error e)
      = .ok (201, (addTaskCore dao reqT userId now).1) ∧
    putDaoPipeline dao reqD now (.error e)
      = .ok (200, applyDaoUpdates dao reqD now) ∧
    (∀ u evs, updateTaskHandler dao taskId reqU userId now = some (u, evs) →
      updateTaskPipeline dao taskId reqU userId now (.error e)
        = .ok (200, u)) ∧
    (∀ u oldName,
      renameTaskCore dao taskId newName userId now = some (u, oldName) →
      renameTaskPipeline dao taskId newName userId now (.error e)
        = .ok (200, u)) ∧
    (∀ u, reorderHandler dao taskIds now = .ok u →
      reorderPipeline dao taskIds now (.error e) = .ok (200, u)) ∧
    (∀ u t, deleteTaskCore dao taskId now = some (u, t) →
      deleteTaskPipeline dao taskId now (.error e) = .ok (200, u, t)) := by
  refine ⟨rfl, rfl, rfl, rfl, ?_, ?_, ?_, ?_⟩
  · intro u evs h
    rw [updateTaskPipeline, h]
    rfl
  · intro u oldName h
    rw [renameTaskPipeline, h]
    rfl
  · intro u h
    rw [reorderPipeline, h]
    rfl
  · intro u t h
    rw [deleteTaskPipeline, h]
    rfl

/-- Witness for the claim C8 theorem: the conditional branches discharged
  on the one-task fixture with an always-failing notifier. -/
theorem notify_failure_swallowed_witness :
    createDaoPipeline exDaoC1 (.error "boom") = .ok (201, exDaoC1) ∧
    (updateTaskPipeline exDaoC1 1
      { progress := some 10, comment := none, isApplicable := none,
        assignedTo := none } "u" "T" (.error "boom")).map Prod.fst
      = .ok 200 ∧
    (renameTaskPipeline exDaoC1 1 "N2" "u" "T" (.error "boom")).map Prod.fst
      = .ok 200 ∧
    (reorderPipeline exDaoC1 [1] "T" (.error "boom")).map Prod.fst
      = .ok 200 ∧
    (deleteTaskPipeline exDaoC1 1 "T" (.error "boom")).map Prod.fst
      = .ok 200 := by
  have h := notify_failure_swallowed exDaoC1 exDaoC1
    { name := "X", isApplicable := true, progress := none, comment := none,
      assignedTo := none }
    { progress := some 10, comment := none, isApplicable := none,
      assignedTo := none }
    { numeroListe := none, objetDossier := none, reference := none,
      autoriteContractante := none, equipe := none, tasks := none }
    [1] 1 "N2" "u" "T" "boom"
  refine ⟨h.1, ?_, ?_, ?_, ?_⟩
  · rw [h.2.2.2.2.1 _ _ rfl]
    rfl
  · rw [h.2.2.2.2.2.1 _ _ rfl]
    rfl
  · rw [h.2.2.2.2.2.2.1 _ rfl]
    rfl
  · rw [h.2.2.2.2.2.2.2 _ _ rfl]
    rfl

/-! ## Claim C9: bulk email dispatch -/

theorem mem_jsSetDedup_go (l : List String) :
    ∀ (seen : List String) (a : String),
      a ∈ jsSetDedup.go seen l ↔ (a ∈ l ∧ a ∉ seen) := by
  induction l with
  | nil => intro seen a; simp [jsSetDedup.go]
  | cons x xs ih =>
      intro seen a
      rw [jsSetDedup.go]
      by_cases hx : x ∈ seen
      · rw [if_pos hx, ih]
        constructor
        · rintro ⟨h1, h2⟩
          exact ⟨List.mem_cons_of_mem x h1, h2⟩
        · rintro ⟨h1, h2⟩
          rcases List.mem_cons.mp h1 with h1 | h1
          · exact absurd (h1 ▸ hx) h2
          · exact ⟨h1, h2⟩
      · rw [if_neg hx]
        constructor
        · intro h
          rcases List.mem_cons.mp h with h | h
          · exact ⟨h ▸ List.mem_cons_self x xs, h ▸ hx⟩
          · rcases (ih (x :: seen) a).mp h with ⟨h1, h2⟩
            exact ⟨List.mem_cons_of_mem x h1,
              fun hs => h2 (List.mem_cons_of_mem x hs)⟩
        · rintro ⟨h1, h2⟩
          by_cases hax : a = x
          · exact hax ▸ List.mem_cons_self x _
          · rcases List.mem_cons.mp h1 with h1 | h1
            · exact absurd h1 hax
            · exact List.mem_cons_of_mem x ((ih (x :: seen) a).mpr
                ⟨h1, fun hs => (List.mem_cons.mp hs).elim hax h2⟩)

theorem nodup_jsSetDedup_go (l : List String) :
    ∀ seen : List String, (jsSetDedup.go seen l).Nodup := by
  induction l with
  | nil => intro seen; simp [jsSetDedup.go]
  | cons x xs ih =>
      intro seen
      rw [jsSetDedup.go]
      by_cases hx : x ∈ seen
      · rw [if_pos hx]
        exact ih seen
      · rw [if_neg hx]
        refine List.nodup_cons.mpr ⟨?_, ih (x :: seen)⟩
        intro hmem
        exact ((mem_jsSetDedup_go xs (x :: seen) x).mp hmem).2
          (List.mem_cons_self x seen)

/-- Claim C9: sendBulkNotification attempts delivery exactly once per
  distinct non-empty address, whatever the per-address delivery outcome is:
  the attempt list is the deduplicated non-empty input, it has no
  duplicates, an address is attempted iff it occurs non-empty in the input
  (count 1, otherwise 0), the loop never escapes with an error, and the
  returned counter is the number of attempts. -/
theorem sendBulk_attempts_each_once (send : String → Except String Unit)
    (toList : List String) :
    ((sendBulkNotification send toList).2.map Prod.fst
      = jsSetDedup (toList.filter (fun a => a ≠ ""))) ∧
    (jsSetDedup (toList.filter (fun a => a ≠ ""))).Nodup ∧
    (∀ a, a ∈ jsSetDedup (toList.filter (fun a => a ≠ "")) ↔
      (a ∈ toList ∧ a ≠ "")) ∧
    ((sendBulkNotification send toList).1
      = (jsSetDedup (toList.filter (fun a => a ≠ ""))).length) ∧
    (∀ a, ((sendBulkNotification send toList).2.map Prod.fst).count a
      = if a ∈ toList ∧ a ≠ "" then 1 else 0) := by
  have hmap : (sendBulkNotification send toList).2.map Prod.fst
      = jsSetDedup (toList.filter (fun a => a ≠ "")) := by
    simp only [sendBulkNotification, List.map_map]
    exact List.map_id'' (fun _ => rfl) _
  have hnodup : (jsSetDedup (toList.filter (fun a => a ≠ ""))).Nodup :=
    nodup_jsSetDedup_go _ []
  have hmem : ∀ a, a ∈ jsSetDedup (toList.filter (fun a => a ≠ "")) ↔
      (a ∈ toList ∧ a ≠ "") := by
    intro a
    rw [jsSetDedup, mem_jsSetDedup_go]
    simp [List.mem_filter]
  refine ⟨hmap, hnodup, hmem, rfl, ?_⟩
  intro a
  rw [hmap]
  by_cases ha : a ∈ toList ∧ a ≠ ""
  · rw [if_pos ha]
    exact List.count_eq_one_of_mem hnodup ((hmem a).mpr ha)
  · rw [if_neg ha]
    exact List.count_eq_zero_of_not_mem (fun hmem2 => ha ((hmem a).mp hmem2))
